import Mathlib

/-!
Shallow embedding of the envseal secret-vault core.

Sources embedded:
  * `internal/crypto/keygen.go` — DEK generation/validation, value
    encryption (ChaCha20-Poly1305 wrapper) and DEK wrapping (age wrapper).
  * the `config` package's secret file (`SecretFile`): Lock/Unlock/Init/
    RotateRecipients/SetSecret/UnsetSecret/GetSecret/GetAllSecrets and
    helpers (`ensureSecretsMap`, `wrapEncrypted`, `decryptIfNeeded`,
    `normalizeAndDedupe`, `zeroBytes`).
  * `internal/config/manifest.go` — roster (`Manifest`) AddUser /
    normalizeInPlace.
  * the rotation branch of `runRekey` in the commands package.

Modelling conventions:
  * Byte strings are `List Nat`; machine randomness (DEK bytes, AEAD
    nonces) is threaded explicitly as `Nat` seeds; `GenerateDEK` is
    modelled total (entropy reads do not fail).
  * The external age and AEAD capabilities are modelled symbolically,
    exactly at the contract the Go wrappers rely on: an age ciphertext
    records the wrapped payload and the recipient set it was encrypted
    to, and decryption succeeds iff the identity's recipient is in that
    set; an AEAD ciphertext records nonce/plaintext/key, and opening
    succeeds iff the key matches (authenticated encryption: a wrong key
    or tampered blob is rejected, never silently garbage).
  * Go methods mutate the receiver in place even on error paths, so all
    mutating operations are `SecretFile → SecretFile × Option Err`
    (final state plus optional error); read-only operations return
    `Except Err α`.
  * The YAML document `RawData : map[string]any` is split structurally:
    the `_envseal` slot (`meta`), the `secrets` slot (`secrets`), and
    the remaining legacy top-level entries (`legacy`, an association
    list whose keys are never the two reserved keys, since a YAML map
    has no duplicate keys). Stored values that are strings carrying the
    `ENC[age,chacha20,...]` wrapper are the `SVal.enc` constructor;
    strings without the wrapper are `SVal.plain`; non-string YAML
    values are `SVal.nonstr` carrying their `%v` rendering.
  * Go's `strings.TrimSpace` is modelled by `trimSpace`, an executable
    trim over the character list (they agree on ASCII whitespace).
-/

deriving instance DecidableEq for Except

namespace Envseal

/-- Byte strings (Go `[]byte`), one `Nat` per byte. -/
abbrev Bytes := List Nat

/-- A private key (age X25519 identity), as its textual form. -/
abbrev Ident := String

/-- Model of `identity.Recipient().String()`: the public key derived from a
private key. Injective by construction. -/
def pubKeyOf (id : Ident) : String := "age1" ++ id

/-- Model of `age.ParseX25519Recipient` succeeding: which strings are valid
public keys. Every `pubKeyOf` output is valid. -/
def isValidPubKey (s : String) : Bool := decide (s.data.take 4 = "age1".data)

/-- `dekSize = chacha20poly1305.KeySize` (keygen.go). -/
def dekSize : Nat := 32

/-- ASCII whitespace, as cut by Go's `strings.TrimSpace` (which also cuts
further Unicode space characters; the embedded documents are ASCII). -/
def isSpaceChar (c : Char) : Bool := c = ' ' ∨ c = '\t' ∨ c = '\n' ∨ c = '\r'

/-- Model of `strings.TrimSpace`: drop whitespace from both ends. -/
def trimSpace (s : String) : String :=
  ⟨((s.data.dropWhile isSpaceChar).reverse.dropWhile isSpaceChar).reverse⟩

/-- Lexicographic strict order on character lists, by code point — Go's
`<` on (ASCII) strings compares bytes, which coincides with this. -/
def lexLt : List Char → List Char → Bool
  | [], [] => false
  | [], _ :: _ => true
  | _ :: _, [] => false
  | a :: as, b :: bs =>
    if a.toNat < b.toNat then true
    else if b.toNat < a.toNat then false
    else lexLt as bs

/-- Go's `<` on strings. -/
def strLtB (a b : String) : Bool := lexLt a.data b.data

/-- Error taxonomy: one constructor per distinct Go error value or
`fmt.Errorf` format string in the embedded code. -/
inductive Err where
  /-- `ErrLocked` -/
  | locked
  /-- `ErrKeyNotFound` -/
  | keyNotFound
  /-- `ErrAccessDenied` -/
  | accessDenied
  /-- `ErrMissingMetadata` -/
  | missingMetadata
  /-- `Unlock`: "identity is nil" -/
  | nilIdentity
  /-- `Unlock`: "error parsing metadata: %w" -/
  | parseMetadata
  /-- "key cannot be empty" (SetSecret / UnsetSecret / GetSecret) -/
  | emptyKey
  /-- `SetSecret`: "cannot use reserved name %q" -/
  | reservedSet (k : String)
  /-- `UnsetSecret`: "cannot unset reserved key %q" -/
  | reservedUnset (k : String)
  /-- `GetSecret`: "reserved key %q cannot be retrieved as a secret" -/
  | reservedGet (k : String)
  /-- `UnsetSecret`: "key %q does not exist" -/
  | unsetMissing (k : String)
  /-- `ensureSecretsMap`: "invalid secrets format" (also non-string key) -/
  | invalidSecretsFormat
  /-- `decryptAnyLocked`: "value is not a string" -/
  | notAString
  /-- `errDecryptDEKDenied` -/
  | dekDenied
  /-- `errCiphertextShort` -/
  | ciphertextShort
  /-- `errDecryptValue` -/
  | decryptValueFailed
  /-- `validateDEK`: "invalid DEK size: got %d, want %d" -/
  | invalidDEKSize (n : Nat)
  /-- `base64.StdEncoding.DecodeString` failure in `DecryptValue` -/
  | base64Invalid
  /-- `parseRecipients`: "no recipients provided" -/
  | noRecipients
  /-- `parseRecipients`: "invalid public key: %w" -/
  | invalidPubKey (k : String)
  /-- `Init`: "initial recipients list cannot be empty" -/
  | initEmptyRecipients
  /-- `rotateRecipientsLocked`: "recipients list cannot be empty" -/
  | rotateEmptyRecipients
  /-- `RotateRecipients`: "cannot rotate recipients without unlocking the file first" -/
  | rotateNotUnlocked
  /-- `rotateRecipientsLocked`: "failed to encrypt for recipient %q: %w" -/
  | encryptForRecipient (k : String)
  /-- `runRekey`: "manifest has no recipients; add at least one user before rekey" -/
  | manifestNoRecipients
  deriving DecidableEq

/-- Model of an armored age ciphertext string (the `enc` field of a
recipient entry). `wrap` is what `EncryptDEK` produces: the payload plus
the recipient set it was encrypted to. `junk` is any other string (hand
edits, corruption, the empty string), which never decrypts. -/
inductive Armor where
  | wrap (payload : Bytes) (recipients : List String)
  | junk (s : String)
  deriving DecidableEq

/-- Model of the Base64 blob produced/consumed by `EncryptValue` /
`DecryptValue`. `sealedV` is a well-formed `nonce ++ Seal(nonce, pt, key)`
blob; `badB64` fails Base64 decoding; `short` decodes to fewer bytes than
the nonce size; `tampered` decodes and is long enough but fails AEAD
authentication under every key. -/
inductive ValueCt where
  | sealedV (nonce : Nat) (pt : String) (key : Bytes)
  | badB64 (s : String)
  | short (bytes : Bytes)
  | tampered (s : String)
  deriving DecidableEq

/-- `validateDEK` (keygen.go). -/
def validateDEK (dek : Bytes) : Option Err :=
  if dek.length ≠ dekSize then some (.invalidDEKSize dek.length) else none

/-- `GenerateDEK` (keygen.go), with the entropy source made explicit:
a 32-byte key derived from the seed. -/
def generateDEK (seed : Nat) : Bytes :=
  (List.range dekSize).map (fun i => (seed + i) % 256)

/-- `parseRecipients` (keygen.go). -/
def parseRecipients (pubKeys : List String) : Except Err (List String) :=
  if pubKeys = [] then .error .noRecipients
  else match pubKeys.find? (fun k => !isValidPubKey k) with
    | some k => .error (.invalidPubKey k)
    | none => .ok pubKeys

/-- `EncryptDEK` (keygen.go): validate the DEK, parse the recipients, then
age-encrypt the DEK to them. -/
def EncryptDEK (dek : Bytes) (recipientPubKeys : List String) : Except Err Armor :=
  match validateDEK dek with
  | some e => .error e
  | none =>
    match parseRecipients recipientPubKeys with
    | .error e => .error e
    | .ok recips => .ok (.wrap dek recips)

/-- `DecryptDEK` (keygen.go): age-decrypt the envelope; any decryption
failure and any payload that is not exactly `dekSize` bytes are collapsed
into the single `dekDenied` error. -/
def DecryptDEK (encryptedDEK : Armor) (identity : Option Ident) : Except Err Bytes :=
  match identity with
  | none => .error .dekDenied
  | some id =>
    match encryptedDEK with
    | .junk _ => .error .dekDenied
    | .wrap payload recips =>
      if pubKeyOf id ∈ recips then
        match validateDEK payload with
        | some _ => .error .dekDenied
        | none => .ok payload
      else .error .dekDenied

/-- `EncryptValue` (keygen.go): validate the DEK, draw a fresh nonce, and
produce the Base64 `nonce ++ ciphertext` blob. -/
def EncryptValue (nonce : Nat) (plaintext : String) (dek : Bytes) : Except Err ValueCt :=
  match validateDEK dek with
  | some e => .error e
  | none => .ok (.sealedV nonce plaintext dek)

/-- `DecryptValue` (keygen.go): validate the DEK, Base64-decode, check the
length against the nonce size, split, and AEAD-open. -/
def DecryptValue (c : ValueCt) (dek : Bytes) : Except Err String :=
  match validateDEK dek with
  | some e => .error e
  | none =>
    match c with
    | .badB64 _ => .error .base64Invalid
    | .short _ => .error .ciphertextShort
    | .sealedV _ pt key => if key = dek then .ok pt else .error .decryptValueFailed
    | .tampered _ => .error .decryptValueFailed

/-- `zeroBytes` (config package): overwrite every byte with zero. -/
def zeroBytes (b : Bytes) : Bytes := b.map (fun _ => 0)

/-- `MetadataKey` (config package). -/
def MetadataKey : String := "_envseal"

/-- `SecretsKey` (config package). -/
def SecretsKey : String := "secrets"

/-- A stored YAML value. `plain` is a string without the
`ENC[age,chacha20,...]` wrapper; `enc` is a string carrying the wrapper,
whose body is the Base64 blob; `nonstr` is any non-string YAML value,
carrying its `fmt.Sprintf("%v", v)` rendering. -/
inductive SVal where
  | plain (s : String)
  | enc (c : ValueCt)
  | nonstr (rendered : String)
  deriving DecidableEq

/-- The textual body of a `ValueCt` (the Base64 text the Go code stores).
An injective rendering standing in for actual Base64. -/
def ctRender : ValueCt → String
  | .sealedV n pt key => "b64:" ++ toString n ++ ":" ++ pt ++ ":" ++ toString key
  | .badB64 s => s
  | .short bs => "short:" ++ toString bs
  | .tampered s => s

/-- `wrapEncrypted` (config package): `encPrefix + cipherText + encSuffix`.
In the model the wrapper marker is the `SVal.enc` constructor. -/
def wrapEncrypted (cipherText : ValueCt) : SVal := .enc cipherText

/-- The full string form of an `SVal.enc` value,
`"ENC[age,chacha20," ++ base64 ++ "]"`. -/
def encRender (c : ValueCt) : String := "ENC[age,chacha20," ++ ctRender c ++ "]"

/-- `decryptIfNeeded` (config package): strings without the wrapper are
returned verbatim; wrapped strings are Base64-stripped and decrypted. -/
def decryptIfNeeded (dek : Bytes) : SVal → Except Err String
  | .plain s => .ok s
  | .enc c => DecryptValue c dek
  | .nonstr r => .ok r

/-- `decryptAnyLocked` (config package): non-string values are rejected,
strings go through `decryptIfNeeded`. -/
def decryptAnyLocked (dek : Bytes) : SVal → Except Err String
  | .nonstr _ => .error .notAString
  | .plain s => .ok s
  | .enc c => DecryptValue c dek

/-- The value of `RawData[SecretsKey]` when present. `smap` covers both
`map[string]any` and a convertible `map[any]any` (the in-place conversion
is content-preserving); `invalid` covers a non-map value or a map with a
non-string key, which `ensureSecretsMap` rejects. -/
inductive SecretsVal where
  | smap (entries : List (String × SVal))
  | invalid (desc : String)
  deriving DecidableEq

/-- A recipient entry (`Recipient` struct, config package). -/
structure Recipient where
  arg : String
  enc : Armor
  deriving DecidableEq

/-- The `Metadata` struct (config package). -/
structure Metadata where
  recipients : List Recipient
  deriving DecidableEq

/-- The value of `RawData[MetadataKey]` when present: either a value whose
YAML round trip parses as `Metadata` (`metaV`), or one on which
`yaml.Unmarshal` into `Metadata` fails (`malformed`, e.g. a scalar). -/
inductive MetaVal where
  | metaV (m : Metadata)
  | malformed (desc : String)
  deriving DecidableEq

/-- `SecretFile` (config package). `RawData` is split structurally into
its `_envseal` slot, its `secrets` slot, and the remaining legacy
top-level entries (whose keys are never the two reserved keys, since a
YAML mapping has no duplicate keys). The file path is omitted: no
embedded operation reads it. -/
structure SecretFile where
  meta : Option MetaVal
  secrets : Option SecretsVal
  legacy : List (String × SVal)
  decryptedDEK : Option Bytes
  deriving DecidableEq

/-- Association-list lookup (`m[k]` read on a Go map; keys are unique). -/
def lookupA {α : Type} : List (String × α) → String → Option α
  | [], _ => none
  | e :: es, k => if e.1 = k then some e.2 else lookupA es k

/-- Association-list assignment (`m[k] = v` on a Go map). -/
def updateA {α : Type} : List (String × α) → String → α → List (String × α)
  | [], k, v => [(k, v)]
  | e :: es, k, v => if e.1 = k then (k, v) :: es else e :: updateA es k v

/-- Association-list deletion (`delete(m, k)` on a Go map). -/
def eraseA {α : Type} : List (String × α) → String → List (String × α)
  | [], _ => []
  | e :: es, k => if e.1 = k then eraseA es k else e :: eraseA es k

/-- `ensureSecretsMap(true)` (config package): return the `secrets:` map,
creating it when absent (or nil); a non-map or non-string-keyed value is
an error and leaves the document unchanged. -/
def ensureSecretsMapCreate (sf : SecretFile) : SecretFile × Except Err (List (String × SVal)) :=
  match sf.secrets with
  | none => ({ sf with secrets := some (.smap []) }, .ok [])
  | some (.smap es) => (sf, .ok es)
  | some (.invalid _) => (sf, .error .invalidSecretsFormat)

/-- `ensureSecretsMap(false)` (config package): return the `secrets:` map
when present, `none` when absent. -/
def ensureSecretsMapRead (sf : SecretFile) : Except Err (Option (List (String × SVal))) :=
  match sf.secrets with
  | none => .ok none
  | some (.smap es) => .ok (some es)
  | some (.invalid _) => .error .invalidSecretsFormat

/-- `NewSecretFile` (config package): empty raw data, then
`ensureSecretsMap(true)`. -/
def NewSecretFile : SecretFile :=
  (ensureSecretsMapCreate { meta := none, secrets := none, legacy := [], decryptedDEK := none }).1

/-- What `os.ReadFile` + `yaml.Unmarshal` yield for the vault path:
the file is absent, reading fails, parsing fails, or a parsed document
(already split into the three structural parts). -/
inductive DiskRead where
  | notExist
  | ioErr (msg : String)
  | yamlBad (msg : String)
  | doc (meta : Option MetaVal) (secrets : Option SecretsVal) (legacy : List (String × SVal))

/-- `LoadSecretFile` (config package): a missing file yields a fresh
empty `SecretFile`; read or parse errors propagate; otherwise the parsed
document, after `ensureSecretsMap(true)`. -/
def LoadSecretFile : DiskRead → Except String SecretFile
  | .notExist => .ok NewSecretFile
  | .ioErr m => .error m
  | .yamlBad m => .error m
  | .doc mt sc lg =>
      .ok (ensureSecretsMapCreate { meta := mt, secrets := sc, legacy := lg, decryptedDEK := none }).1

/-- `IsUnlocked` (config package). -/
def IsUnlocked (sf : SecretFile) : Bool := sf.decryptedDEK.isSome

/-- `Lock` (config package): zero the DEK bytes, then drop the reference.
The second component is the final content of the old DEK buffer after
the wipe (observable through any alias of that buffer). -/
def Lock (sf : SecretFile) : SecretFile × Option Bytes :=
  ({ sf with decryptedDEK := none }, sf.decryptedDEK.map zeroBytes)

/-- The recipient loop inside `Unlock`: the first entry whose `enc` field
decrypts under the identity yields the DEK. -/
def unlockScan (id : Ident) : List Recipient → Option Bytes
  | [] => none
  | r :: rs =>
    match DecryptDEK r.enc (some id) with
    | .ok dek => some dek
    | .error _ => unlockScan id rs

/-- `Unlock` (config package). The `yaml.Marshal` of the metadata slot is
modelled as never failing (marshalling an in-memory YAML value cannot
fail); `yaml.Unmarshal` into `Metadata` fails exactly on
`MetaVal.malformed`. On success the old key is zeroed and a clone of the
new one is stored (value semantics: a plain update). -/
def Unlock (sf : SecretFile) (identity : Option Ident) : SecretFile × Option Err :=
  match identity with
  | none => (sf, some .nilIdentity)
  | some id =>
    match sf.meta with
    | none => (sf, some .missingMetadata)
    | some (.malformed _) => (sf, some .parseMetadata)
    | some (.metaV m) =>
      match unlockScan id m.recipients with
      | some dek => ({ sf with decryptedDEK := some dek }, none)
      | none => (sf, some .accessDenied)

/-- Stable insertion into a sorted list: place `x` before the first
element it is strictly less than (Go's `insertionSort` inner loop swaps
`x` down while `less(x, prev)`). -/
def insertSorted {α : Type} (less : α → α → Bool) (x : α) : List α → List α
  | [] => [x]
  | y :: ys => if less x y then x :: y :: ys else y :: insertSorted less x ys

/-- Stable insertion sort with a Go-style `less` comparator, modelling
`sort.Slice` / `sort.Strings` (Go's algorithm is exactly this insertion
sort for slices shorter than 12, and produces a list sorted by the same
comparator in general). -/
def insertionSort {α : Type} (less : α → α → Bool) (xs : List α) : List α :=
  xs.foldl (fun acc x => insertSorted less x acc) []

/-- `normalizeAndDedupe` (config package): trim, drop empties, dedupe,
sort ascending. -/
def normalizeAndDedupe (keys : List String) : List String :=
  insertionSort strLtB
    (((keys.map (fun k => trimSpace k)).filter (fun k => k != "")).eraseDups)

/-- The wrap loop of `rotateRecipientsLocked`: wrap the DEK for each key
in turn, aborting on the first failure. -/
def buildRecipients (dek : Bytes) : List String → Except Err (List Recipient)
  | [] => .ok []
  | k :: ks =>
    match EncryptDEK dek [k] with
    | .error _ => .error (.encryptForRecipient k)
    | .ok a =>
      match buildRecipients dek ks with
      | .error e => .error e
      | .ok rs => .ok (⟨k, a⟩ :: rs)

/-- `rotateRecipientsLocked` (config package): normalize the target keys,
wrap the current DEK for each, and only then replace the metadata block.
A `nil` DEK is the empty byte string (its wrap fails size validation). -/
def rotateRecipientsLocked (sf : SecretFile) (publicKeys : List String) : SecretFile × Option Err :=
  let keys := normalizeAndDedupe publicKeys
  if keys = [] then (sf, some .rotateEmptyRecipients)
  else
    match buildRecipients (sf.decryptedDEK.getD []) keys with
    | .error e => (sf, some e)
    | .ok rs => ({ sf with meta := some (.metaV ⟨rs⟩) }, none)

/-- `RotateRecipients` (config package): the standard rekey. -/
def RotateRecipients (sf : SecretFile) (publicKeys : List String) : SecretFile × Option Err :=
  match sf.decryptedDEK with
  | none => (sf, some .rotateNotUnlocked)
  | some _ => rotateRecipientsLocked sf publicKeys

/-- `Init` (config package): mint a fresh DEK (entropy seed explicit),
install it, ensure the secrets map exists, then wrap for the initial
recipients. -/
def Init (sf : SecretFile) (initialRecipients : List String) (seed : Nat) : SecretFile × Option Err :=
  if initialRecipients = [] then (sf, some .initEmptyRecipients)
  else
    let sf1 := { sf with decryptedDEK := some (generateDEK seed) }
    let sf2 := (ensureSecretsMapCreate sf1).1
    rotateRecipientsLocked sf2 initialRecipients

/-- `SetSecret` (config package). The nonce drawn inside `EncryptValue`
is threaded explicitly. -/
def SetSecret (sf : SecretFile) (key value : String) (nonce : Nat) : SecretFile × Option Err :=
  match sf.decryptedDEK with
  | none => (sf, some .locked)
  | some dek =>
    let k := trimSpace key
    if k = "" then (sf, some .emptyKey)
    else if k = MetadataKey ∨ k = SecretsKey then (sf, some (.reservedSet k))
    else
      match EncryptValue nonce value dek with
      | .error e => (sf, some e)
      | .ok ct =>
        match ensureSecretsMapCreate sf with
        | (sf1, .error e) => (sf1, some e)
        | (sf1, .ok es) =>
          ({ sf1 with secrets := some (.smap (updateA es k (wrapEncrypted ct))),
                      legacy := eraseA sf1.legacy k }, none)

/-- `UnsetSecret` (config package). -/
def UnsetSecret (sf : SecretFile) (key : String) : SecretFile × Option Err :=
  match sf.decryptedDEK with
  | none => (sf, some .locked)
  | some _ =>
    let k := trimSpace key
    if k = "" then (sf, some .emptyKey)
    else if k = MetadataKey ∨ k = SecretsKey then (sf, some (.reservedUnset k))
    else
      match ensureSecretsMapCreate sf with
      | (sf1, .error e) => (sf1, some e)
      | (sf1, .ok es) =>
        if (lookupA es k).isNone ∧ (lookupA sf1.legacy k).isNone
        then (sf1, some (.unsetMissing k))
        else ({ sf1 with secrets := some (.smap (eraseA es k)),
                         legacy := eraseA sf1.legacy k }, none)

/-- The legacy-fallback tail of `GetSecret`. -/
def getSecretLegacy (dek : Bytes) (legacy : List (String × SVal)) (k : String) : Except Err String :=
  match lookupA legacy k with
  | some v => decryptAnyLocked dek v
  | none => .error .keyNotFound

/-- `GetSecret` (config package): canonical `secrets:` map first (skipped
when absent or invalid, the error being swallowed), then the legacy
top-level slot, else `ErrKeyNotFound`. -/
def GetSecret (sf : SecretFile) (key : String) : Except Err String :=
  match sf.decryptedDEK with
  | none => .error .locked
  | some dek =>
    let k := trimSpace key
    if k = "" then .error .emptyKey
    else if k = MetadataKey ∨ k = SecretsKey then .error (.reservedGet k)
    else
      match ensureSecretsMapRead sf with
      | .ok (some es) =>
        match lookupA es k with
        | some v => decryptAnyLocked dek v
        | none => getSecretLegacy dek sf.legacy k
      | _ => getSecretLegacy dek sf.legacy k

/-- The raw fallback stored for an entry whose decryption failed in
`GetAllSecrets`: the stored string itself, or the `%v` rendering of a
non-string value. -/
def rawFallback : SVal → String
  | .plain s => s
  | .enc c => encRender c
  | .nonstr r => r

/-- The canonical-map loop of `GetAllSecrets`: decrypt each entry,
degrading to the raw stored value on failure. -/
def getAllCanon (dek : Bytes) (out : List (String × String)) :
    List (String × SVal) → List (String × String)
  | [] => out
  | (k, v) :: es =>
    match decryptAnyLocked dek v with
    | .ok val => getAllCanon dek (updateA out k val) es
    | .error _ => getAllCanon dek (updateA out k (rawFallback v)) es

/-- One iteration of the legacy-entry loop of `GetAllSecrets`: skip
reserved keys, keys already present, and non-strings; decrypt-if-needed
with the same raw fallback on failure. -/
def legacyOut (dek : Bytes) (out : List (String × String)) (k : String) (v : SVal) :
    List (String × String) :=
  if k = MetadataKey ∨ k = SecretsKey then out
  else if (lookupA out k).isSome then out
  else
    match v with
    | .nonstr _ => out
    | .plain s => updateA out k s
    | .enc c =>
      match DecryptValue c dek with
      | .ok val => updateA out k val
      | .error _ => updateA out k (encRender c)

/-- The legacy-entry loop of `GetAllSecrets`. -/
def getAllLegacy (dek : Bytes) (out : List (String × String)) :
    List (String × SVal) → List (String × String)
  | [] => out
  | (k, v) :: es => getAllLegacy dek (legacyOut dek out k v) es

/-- `GetAllSecrets` (config package): requires the unlocked state, swallows
`ensureSecretsMap` errors (skipping the canonical block), and otherwise
never fails. -/
def GetAllSecrets (sf : SecretFile) : Except Err (List (String × String)) :=
  match sf.decryptedDEK with
  | none => .error .locked
  | some dek =>
    let out0 : List (String × String) :=
      match ensureSecretsMapRead sf with
      | .ok (some es) => getAllCanon dek [] es
      | _ => []
    .ok (getAllLegacy dek out0 sf.legacy)

/-! ### Roster (`internal/config/manifest.go`) -/

/-- A roster entry (`User`). -/
structure User where
  name : String
  publicKey : String
  deriving DecidableEq

/-- The roster (`Manifest`). -/
structure Manifest where
  projectName : String
  accessControl : List User
  deriving DecidableEq

/-- Roster errors (`manifest.go`). -/
inductive ManifestErr where
  | invalidName
  | invalidPubKeyEmpty
  | userExists
  | userNotFound
  deriving DecidableEq

/-- `Manifest.AddUser`: trim and validate, reject duplicate public keys,
append, then `sort.Slice` by name only (its comparator compares names and
nothing else). -/
def AddUser (m : Manifest) (name pubKey : String) : Except ManifestErr Manifest :=
  let name := trimSpace name
  let pubKey := trimSpace pubKey
  if name = "" then .error .invalidName
  else if pubKey = "" then .error .invalidPubKeyEmpty
  else if (m.accessControl.find? (fun u => u.publicKey == pubKey)).isSome then .error .userExists
  else
    let appended := m.accessControl ++ [{ name := name, publicKey := pubKey }]
    .ok { m with accessControl := insertionSort (fun a b => strLtB a.name b.name) appended }

/-- The dedupe pass of `normalizeInPlace`: drop empty public keys, keep
the first occurrence of each public key. -/
def dedupUsers : List User → List String → List User
  | [], _ => []
  | u :: us, seen =>
    if u.publicKey = "" then dedupUsers us seen
    else if u.publicKey ∈ seen then dedupUsers us seen
    else u :: dedupUsers us (u.publicKey :: seen)

/-- `Manifest.normalizeInPlace`: trim fields, dedupe by public key
(first occurrence wins, empty keys discarded), sort by name with the
public key as tie-break. -/
def normalizeInPlace (m : Manifest) : Manifest :=
  let trimmed := m.accessControl.map (fun u => { name := trimSpace u.name, publicKey := trimSpace u.publicKey })
  let sorted :=
    insertionSort
      (fun a b => if a.name = b.name then strLtB a.publicKey b.publicKey else strLtB a.name b.name)
      (dedupUsers trimmed [])
  { m with accessControl := sorted }

/-! ### Rotation-mode rekey (commands package, `runRekey` with `--rotate`) -/

/-- What `Save` persists: the serialized `RawData` (the DEK is never
written). -/
structure SavedDoc where
  meta : Option MetaVal
  secrets : Option SecretsVal
  legacy : List (String × SVal)
  deriving DecidableEq

/-- The document `Save` would write for a given in-memory state. -/
def saveDoc (sf : SecretFile) : SavedDoc :=
  { meta := sf.meta, secrets := sf.secrets, legacy := sf.legacy }

/-- The re-encryption loop of rotation mode: `SetSecret` for every entry
of the previously read map, aborting on the first failure (the
`fmt.Errorf` wrap keeps the underlying error). Nonces are drawn fresh
per call. -/
def setAll (sf : SecretFile) (entries : List (String × String)) (nonce : Nat) :
    SecretFile × Option Err :=
  match entries with
  | [] => (sf, none)
  | (k, v) :: rest =>
    match SetSecret sf k v nonce with
    | (sf1, some e) => (sf1, some e)
    | (sf1, none) => setAll sf1 rest (nonce + 1)

/-- The rotation branch of `runRekey` (commands package), starting from
the already-unlocked in-memory file: check the target list, read all
secrets, `Init` a fresh DEK with new wraps, re-seal every value, and only
then `Save`. The deferred `Lock` applies on every exit path. The atomic
write itself is modelled as succeeding (persistence is an external
capability); on any earlier error it is never reached, so the disk
argument is returned unchanged. -/
def runRekeyRotate (sf0 : SecretFile) (disk : Option SavedDoc) (recipients : List String)
    (seed : Nat) : SecretFile × Option SavedDoc × Option Err :=
  if recipients = [] then ((Lock sf0).1, disk, some .manifestNoRecipients)
  else
    match GetAllSecrets sf0 with
    | .error e => ((Lock sf0).1, disk, some e)
    | .ok all =>
      match Init sf0 recipients seed with
      | (sf1, some e) => ((Lock sf1).1, disk, some e)
      | (sf1, none) =>
        match setAll sf1 all (seed + 1) with
        | (sf2, some e) => ((Lock sf2).1, disk, some e)
        | (sf2, none) => ((Lock sf2).1, some (saveDoc sf2), none)

/-! ## Helper lemmas -/

theorem lookupA_updateA_self {α : Type} (out : List (String × α)) (k : String) (v : α) :
    lookupA (updateA out k v) k = some v := by
  induction out with
  | nil => simp [updateA, lookupA]
  | cons e es ih =>
    by_cases h : e.1 = k
    · simp [updateA, lookupA, h]
    · simp [updateA, lookupA, h, ih]

theorem lookupA_updateA_other {α : Type} (out : List (String × α)) (k k2 : String) (v : α)
    (h : k ≠ k2) : lookupA (updateA out k2 v) k = lookupA out k := by
  have hne : ¬ k2 = k := fun hh => h hh.symm
  induction out with
  | nil => simp [updateA, lookupA, hne]
  | cons e es ih =>
    by_cases he : e.1 = k2
    · have hek : ¬ e.1 = k := by rw [he]; exact hne
      simp [updateA, lookupA, he, hne, hek]
    · by_cases hk : e.1 = k
      · simp [updateA, lookupA, he, hk, h]
      · simp [updateA, lookupA, he, hk, ih]

theorem mem_insertSorted {α : Type} (less : α → α → Bool) (x a : α) (l : List α) :
    a ∈ insertSorted less x l ↔ a = x ∨ a ∈ l := by
  induction l with
  | nil => simp [insertSorted]
  | cons y ys ih =>
    by_cases h : less x y
    · simp only [insertSorted, h, if_true, List.mem_cons]
    · simp only [insertSorted, h, if_false, Bool.false_eq_true, List.mem_cons, ih]
      tauto

theorem pairwise_insertSorted {α : Type} (less : α → α → Bool) (R : α → α → Prop)
    (h1 : ∀ a b, less a b = true → R a b) (h2 : ∀ a b, less a b = false → R b a)
    (htr : ∀ a b c, R a b → R b c → R a c) (x : α) (l : List α)
    (hl : List.Pairwise R l) : List.Pairwise R (insertSorted less x l) := by
  induction l with
  | nil => simp [insertSorted]
  | cons y ys ih =>
    rw [List.pairwise_cons] at hl
    obtain ⟨hy, hys⟩ := hl
    by_cases h : less x y
    · simp only [insertSorted, h, if_true]
      refine List.Pairwise.cons ?_ (List.Pairwise.cons hy hys)
      intro z hz
      rcases List.mem_cons.mp hz with rfl | hz
      · exact h1 _ _ h
      · exact htr _ _ _ (h1 _ _ h) (hy z hz)
    · simp only [insertSorted, h, if_false, Bool.false_eq_true]
      refine List.Pairwise.cons ?_ (ih hys)
      intro z hz
      rcases (mem_insertSorted less x z ys).mp hz with rfl | hz
      · exact h2 _ _ (by simpa using h)
      · exact hy z hz

theorem pairwise_insertionSort {α : Type} (less : α → α → Bool) (R : α → α → Prop)
    (h1 : ∀ a b, less a b = true → R a b) (h2 : ∀ a b, less a b = false → R b a)
    (htr : ∀ a b c, R a b → R b c → R a c) (xs : List α) :
    List.Pairwise R (insertionSort less xs) := by
  have key : ∀ (l : List α) (acc : List α), List.Pairwise R acc →
      List.Pairwise R (l.foldl (fun acc x => insertSorted less x acc) acc) := by
    intro l
    induction l with
    | nil => intro acc h; simpa using h
    | cons x xs ih =>
      intro acc hacc
      exact ih _ (pairwise_insertSorted less R h1 h2 htr x acc hacc)
  exact key xs [] List.Pairwise.nil

theorem decryptDEK_length (a : Armor) (idO : Option Ident) (d : Bytes)
    (h : DecryptDEK a idO = .ok d) : d.length = dekSize := by
  rcases idO with - | id
  · simp [DecryptDEK] at h
  · rcases a with ⟨payload, recips⟩ | s
    · by_cases hm : pubKeyOf id ∈ recips
      · by_cases hlen : payload.length = dekSize
        · simp only [DecryptDEK, hm, if_true, validateDEK, hlen, ne_eq, not_true_eq_false,
            if_false, Except.ok.injEq] at h
          subst h
          exact hlen
        · simp [DecryptDEK, hm, validateDEK, hlen] at h
      · simp [DecryptDEK, hm] at h
    · simp [DecryptDEK] at h

theorem unlockScan_length (id : Ident) (rs : List Recipient) (dek : Bytes)
    (h : unlockScan id rs = some dek) : dek.length = dekSize := by
  induction rs with
  | nil => simp [unlockScan] at h
  | cons r rest ih =>
    simp only [unlockScan] at h
    rcases hr : DecryptDEK r.enc (some id) with e | d
    · rw [hr] at h; exact ih h
    · rw [hr] at h
      simp only [Option.some.injEq] at h
      subst h
      exact decryptDEK_length _ _ _ hr

/-- What `GetAllSecrets` ends up storing for a canonical entry: the
decrypted value, or the raw stored value when decryption fails. -/
def canonResult (d : Bytes) (v : SVal) : String :=
  match decryptAnyLocked d v with
  | .ok val => val
  | .error _ => rawFallback v

theorem getAllCanon_preserve (d : Bytes) (es : List (String × SVal)) (out : List (String × String))
    (k : String) (hk : k ∉ es.map Prod.fst) :
    lookupA (getAllCanon d out es) k = lookupA out k := by
  induction es generalizing out with
  | nil => rfl
  | cons e es ih =>
    obtain ⟨k1, v1⟩ := e
    simp only [List.map_cons, List.mem_cons] at hk
    push_neg at hk
    obtain ⟨hk1, hk2⟩ := hk
    simp only [getAllCanon]
    cases hdv : decryptAnyLocked d v1 <;>
      rw [ih _ hk2, lookupA_updateA_other _ _ _ _ hk1]

theorem getAllCanon_lookup (d : Bytes) (es : List (String × SVal)) (out : List (String × String))
    (k : String) (v : SVal) (hnd : (es.map Prod.fst).Nodup) (hmem : (k, v) ∈ es) :
    lookupA (getAllCanon d out es) k = some (canonResult d v) := by
  induction es generalizing out with
  | nil => cases hmem
  | cons e es ih =>
    obtain ⟨k1, v1⟩ := e
    rcases List.mem_cons.mp hmem with heq | hmem2
    · obtain ⟨rfl, rfl⟩ := Prod.mk.injEq .. |>.mp heq
      have hk : k ∉ es.map Prod.fst := by
        simp only [List.map_cons, List.nodup_cons] at hnd
        exact hnd.1
      simp only [getAllCanon]
      cases hdv : decryptAnyLocked d v <;>
        rw [getAllCanon_preserve _ _ _ _ hk, lookupA_updateA_self] <;>
        simp [canonResult, hdv]
    · have hnd2 : (es.map Prod.fst).Nodup := by
        simp only [List.map_cons, List.nodup_cons] at hnd
        exact hnd.2
      simp only [getAllCanon]
      cases hdv : decryptAnyLocked d v1 <;> exact ih _ hnd2 hmem2

theorem lookupA_legacyOut (d : Bytes) (out : List (String × String)) (k1 : String) (v1 : SVal)
    (k : String) (x : String) (h : lookupA out k = some x) :
    lookupA (legacyOut d out k1 v1) k = some x := by
  unfold legacyOut
  by_cases hres : k1 = MetadataKey ∨ k1 = SecretsKey
  · simp only [hres, if_true]
    exact h
  · simp only [hres, if_false]
    by_cases hpres : (lookupA out k1).isSome
    · simp only [hpres, if_true]
      exact h
    · simp only [hpres, if_false, Bool.false_eq_true]
      have hk1 : k ≠ k1 := by
        intro hkk
        rw [hkk] at h
        rw [h] at hpres
        simp at hpres
      have hupd : ∀ y, lookupA (updateA out k1 y) k = some x := by
        intro y
        rw [lookupA_updateA_other _ _ _ _ hk1]
        exact h
      split
      · exact h
      · exact hupd _
      · split <;> exact hupd _

theorem getAllLegacy_preserve (d : Bytes) (lg : List (String × SVal)) (out : List (String × String))
    (k : String) (x : String) (h : lookupA out k = some x) :
    lookupA (getAllLegacy d out lg) k = some x := by
  induction lg generalizing out with
  | nil => exact h
  | cons e lg ih =>
    obtain ⟨k1, v1⟩ := e
    simp only [getAllLegacy]
    exact ih _ (lookupA_legacyOut d out k1 v1 k x h)

/-- Modelled after the spec's description of `Unlock` for claim C3: the raw
asymmetric unwrap capability (age decryption succeeds iff the identity's
recipient is in the ciphertext's recipient set), without the wrapper's
length validation. -/
def ageUnwrap (a : Armor) (id : Ident) : Option Bytes :=
  match a with
  | .junk _ => none
  | .wrap payload recips => if pubKeyOf id ∈ recips then some payload else none

/-- Modelled after the spec's words for claim C3: the first recipient entry
that unwraps successfully under the supplied private key AND yields a key
of the correct fixed length becomes the DEK; other entries are skipped. -/
def specFirstUnwrap (id : Ident) : List Recipient → Option Bytes
  | [] => none
  | r :: rest =>
    match ageUnwrap r.enc id with
    | some payload => if payload.length = dekSize then some payload else specFirstUnwrap id rest
    | none => specFirstUnwrap id rest

theorem unlockScan_eq_specFirstUnwrap (id : Ident) (rs : List Recipient) :
    unlockScan id rs = specFirstUnwrap id rs := by
  induction rs with
  | nil => rfl
  | cons r rest ih =>
    simp only [unlockScan, specFirstUnwrap]
    rcases hr : r.enc with ⟨payload, recips⟩ | s
    · by_cases hm : pubKeyOf id ∈ recips
      · by_cases hlen : payload.length = dekSize
        · simp [DecryptDEK, ageUnwrap, hm, validateDEK, hlen]
        · simp [DecryptDEK, ageUnwrap, hm, validateDEK, hlen, ih]
      · simp [DecryptDEK, ageUnwrap, hm, ih]
    · simp [DecryptDEK, ageUnwrap, ih]

/-! ## Concrete fixtures used by witnesses and counterexamples -/

/-- A concrete 32-byte DEK. -/
def dekW : Bytes := List.replicate 32 7

/-- A second, distinct concrete 32-byte DEK (the "old" key in rotation
scenarios). -/
def oldDekW : Bytes := List.replicate 32 9

/-- A recipient entry wrapping `dekW` for the identity `"alice"`. -/
def recW : Recipient := { arg := pubKeyOf "alice", enc := .wrap dekW [pubKeyOf "alice"] }

/-- A vault with one junk entry followed by a valid entry for `"alice"`. -/
def sfUnlockW : SecretFile :=
  { meta := some (.metaV { recipients := [{ arg := "bad", enc := .junk "xx" }, recW] })
  , secrets := some (.smap []), legacy := [], decryptedDEK := none }

/-- A locked vault. -/
def sfLockedW : SecretFile :=
  { meta := none, secrets := none, legacy := [], decryptedDEK := none }

/-- An unlocked vault holding `dekW`. -/
def sfUnlockedW : SecretFile :=
  { meta := none, secrets := none, legacy := [], decryptedDEK := some dekW }

/-- A vault whose metadata block is present but fails to parse as the
`Metadata` structure (e.g. `_envseal: garbage` — a scalar). -/
def sfMalW : SecretFile :=
  { meta := some (.malformed "scalar"), secrets := some (.smap []), legacy := []
  , decryptedDEK := none }

/-- A vault whose metadata parses but matches no key of `"mallory"`. -/
def sfWrongKeyW : SecretFile :=
  { meta := some (.metaV { recipients := [recW] }), secrets := some (.smap []), legacy := []
  , decryptedDEK := none }

/-- A vault whose only recipient entry is corrupt (junk armor). -/
def sfCorruptEntryW : SecretFile :=
  { meta := some (.metaV { recipients := [{ arg := "a", enc := .junk "zz" }] })
  , secrets := some (.smap []), legacy := [], decryptedDEK := none }

/-- An unlocked vault with metadata and one sealed value, for the
rewrap frame witness. -/
def sfRotFrameW : SecretFile :=
  { meta := some (.metaV { recipients := [recW] })
  , secrets := some (.smap [("a", .enc (.sealedV 1 "va" dekW))])
  , legacy := [], decryptedDEK := some dekW }

/-- A vault for C10: unlocked, with values stored at both reserved keys'
locations. -/
def sfResW : SecretFile :=
  { meta := some (.metaV { recipients := [recW] })
  , secrets := some (.smap [("x", .plain "v")]), legacy := [], decryptedDEK := some dekW }

/-- A vault with one undecryptable canonical entry, one good one, and a
legacy entry. -/
def sfDegradeW : SecretFile :=
  { meta := none
  , secrets := some (.smap [("bad", .enc (.tampered "zz")), ("good", .enc (.sealedV 1 "v" dekW))])
  , legacy := [("leg", .plain "L")], decryptedDEK := some dekW }

/-- A roster already containing a user named `"b"`. -/
def mTieW : Manifest := { projectName := "p", accessControl := [{ name := "b", publicKey := "k2" }] }

/-- The roster produced by adding `("b", "k1")` to `mTieW`. -/
def m2W : Manifest :=
  { projectName := "p"
  , accessControl := [{ name := "b", publicKey := "k2" }, { name := "b", publicKey := "k1" }] }

/-- An unlocked vault for the rotation counterexample: its secrets map
holds a key that trims to empty (so re-sealing it fails) and a normal
value sealed under the old DEK. -/
def sfRotC1 : SecretFile :=
  { meta := some (.metaV { recipients := [{ arg := pubKeyOf "r", enc := .wrap oldDekW [pubKeyOf "r"] }] })
  , secrets := some (.smap [(" ", .plain "v2"), ("a", .enc (.sealedV 1 "va" oldDekW))])
  , legacy := [], decryptedDEK := some oldDekW }

/-! ## Claim theorems -/

/-- C5: for every plaintext and every 32-byte DEK, sealing and then
unsealing with the same key returns exactly the plaintext. -/
theorem C5_seal_unseal_roundtrip (p : String) (k : Bytes) (nonce : Nat)
    (hk : k.length = dekSize) :
    EncryptValue nonce p k = .ok (.sealedV nonce p k) ∧
    DecryptValue (.sealedV nonce p k) k = .ok p := by
  constructor
  · simp [EncryptValue, validateDEK, hk]
  · simp [DecryptValue, validateDEK, hk]

/-- Witness for C5 at plaintext `"hello"`, `dekW`, nonce 3. -/
theorem C5_seal_unseal_roundtrip_witness :
    EncryptValue 3 "hello" dekW = .ok (.sealedV 3 "hello" dekW) ∧
    DecryptValue (.sealedV 3 "hello" dekW) dekW = .ok "hello" :=
  C5_seal_unseal_roundtrip "hello" dekW 3 (by decide)

/-- C8: `Lock` leaves the vault locked, is idempotent and total (never
errors), is a no-op on an already-locked vault, and zeroes the old DEK
buffer. -/
theorem C8_lock_idempotent (sf : SecretFile) :
    (Lock sf).1.decryptedDEK = none ∧
    (Lock (Lock sf).1).1 = (Lock sf).1 ∧
    (sf.decryptedDEK = none → (Lock sf).1 = sf) ∧
    (∀ b, sf.decryptedDEK = some b → (Lock sf).2 = some (List.replicate b.length 0)) := by
  refine ⟨rfl, rfl, ?_, ?_⟩
  · intro h
    cases sf
    simp only at h
    subst h
    rfl
  · intro b hb
    simp [Lock, hb, zeroBytes, List.map_const']

/-- Witness for C8 on a locked and an unlocked vault. -/
theorem C8_lock_idempotent_witness :
    (Lock sfLockedW).1 = sfLockedW ∧ (Lock sfUnlockedW).2 = some (List.replicate 32 0) :=
  ⟨(C8_lock_idempotent sfLockedW).2.2.1 rfl,
   by
    have h := (C8_lock_idempotent sfUnlockedW).2.2.2 dekW rfl
    simpa [dekW] using h⟩

/-- C10: on an unlocked vault, `GetSecret` with a name trimming to a
reserved key always fails with the reserved-key error, which is distinct
from `ErrKeyNotFound`, regardless of what the document stores. -/
theorem C10_getSecret_reserved (sf : SecretFile) (key : String) (d : Bytes)
    (hd : sf.decryptedDEK = some d)
    (hres : trimSpace key = MetadataKey ∨ trimSpace key = SecretsKey) :
    GetSecret sf key = .error (.reservedGet (trimSpace key)) ∧
    (∀ s, Err.reservedGet s ≠ Err.keyNotFound) := by
  constructor
  · have hne : ¬ trimSpace key = "" := by
      rcases hres with h | h <;> rw [h] <;> decide
    simp only [GetSecret, hd]
    rw [if_neg hne, if_pos hres]
  · intro s h
    cases h

/-- Witness for C10 at the reserved names (with surrounding whitespace). -/
theorem C10_getSecret_reserved_witness :
    GetSecret sfResW " secrets " = .error (.reservedGet "secrets") ∧
    GetSecret sfResW "_envseal" = .error (.reservedGet "_envseal") ∧
    Err.reservedGet "secrets" ≠ Err.keyNotFound := by
  have h1 := (C10_getSecret_reserved sfResW " secrets " dekW rfl (Or.inr (by decide))).1
  have h2 := C10_getSecret_reserved sfResW "_envseal" dekW rfl (Or.inl (by decide))
  have e : trimSpace " secrets " = "secrets" := by decide
  rw [e] at h1
  have e2 : trimSpace "_envseal" = "_envseal" := by decide
  have h2a := h2.1
  rw [e2] at h2a
  exact ⟨h1, h2a, h2.2 "secrets"⟩

/-- C9: loading a path with no file yields a fresh locked secret file with
an empty secrets map and no recipient metadata, and no error; `Unlock` on
it then fails with `MissingMetadata`. -/
theorem C9_load_missing_file (id : Ident) :
    ∃ sf, LoadSecretFile .notExist = .ok sf ∧
      sf.meta = none ∧ sf.secrets = some (.smap []) ∧ sf.legacy = [] ∧
      sf.decryptedDEK = none ∧
      Unlock sf (some id) = (sf, some .missingMetadata) :=
  ⟨NewSecretFile, rfl, rfl, rfl, rfl, rfl, rfl⟩

/-- C3: for a document whose metadata block parses to a recipient list,
`Unlock` installs as active DEK the first entry that unwraps under the
supplied private key to a key of exactly `dekSize` (32) bytes and
succeeds; if no entry unwraps to such a key it fails with `AccessDenied`;
a document with no metadata block fails with the distinct
`MissingMetadata` error. -/
theorem C3_unlock_first_unwrap (sf : SecretFile) (id : Ident) (m : Metadata)
    (hm : sf.meta = some (.metaV m)) :
    (∀ dek, specFirstUnwrap id m.recipients = some dek →
        Unlock sf (some id) = ({ sf with decryptedDEK := some dek }, none) ∧
        dek.length = dekSize) ∧
    (specFirstUnwrap id m.recipients = none →
        Unlock sf (some id) = (sf, some .accessDenied)) ∧
    (∀ sf2 : SecretFile, sf2.meta = none → Unlock sf2 (some id) = (sf2, some .missingMetadata)) ∧
    Err.missingMetadata ≠ Err.accessDenied := by
  refine ⟨?_, ?_, ?_, by intro h; cases h⟩
  · intro dek hdek
    have hscan : unlockScan id m.recipients = some dek := by
      rw [unlockScan_eq_specFirstUnwrap]
      exact hdek
    refine ⟨?_, unlockScan_length id m.recipients dek hscan⟩
    simp only [Unlock, hm, hscan]
  · intro hnone
    have hscan : unlockScan id m.recipients = none := by
      rw [unlockScan_eq_specFirstUnwrap]
      exact hnone
    simp only [Unlock, hm, hscan]
  · intro sf2 h2
    simp only [Unlock, h2]

/-- Witness for C3: a junk first entry is skipped and the valid second
entry for `"alice"` yields the DEK. -/
theorem C3_unlock_first_unwrap_witness :
    Unlock sfUnlockW (some "alice") = ({ sfUnlockW with decryptedDEK := some dekW }, none) ∧
    dekW.length = dekSize :=
  (C3_unlock_first_unwrap sfUnlockW "alice"
    { recipients := [{ arg := "bad", enc := .junk "xx" }, recW] } rfl).1 dekW (by decide)

/-- C4 counterexample: two documents that both have a metadata block and
both fail `Unlock` for different reasons — one whose metadata does not
parse as the recipient structure, one whose recipients don't match the
key — yield DIFFERENT externally visible errors (`parseMetadata` vs
`AccessDenied`), contrary to the claim. -/
theorem C4_unlock_error_counterexample :
    sfMalW.meta ≠ none ∧ sfWrongKeyW.meta ≠ none ∧
    (Unlock sfMalW (some "mallory")).2 = some Err.parseMetadata ∧
    (Unlock sfWrongKeyW (some "mallory")).2 = some Err.accessDenied ∧
    Err.parseMetadata ≠ Err.accessDenied := by decide

/-- C4 amended: restricted to documents whose metadata block parses as a
recipient list, every `Unlock` failure — corrupt/junk entries, entries
wrapping a wrong-length key, or a private key matching no entry — is the
single `AccessDenied` error, revealing nothing about the cause; only a
metadata block that fails structural parsing yields a distinct error. -/
theorem C4_unlock_uniform_denial (sf : SecretFile) (id : Ident) (m : Metadata) (e : Err)
    (hm : sf.meta = some (.metaV m)) (he : (Unlock sf (some id)).2 = some e) :
    e = .accessDenied := by
  simp only [Unlock, hm] at he
  cases hscan : unlockScan id m.recipients with
  | some dek =>
    rw [hscan] at he
    simp at he
  | none =>
    rw [hscan] at he
    simp only [Option.some.injEq] at he
    exact he.symm

/-- Witness for C4's amended theorem: a corrupt-entry document and a
wrong-key document both fail with exactly `AccessDenied`. -/
theorem C4_unlock_uniform_denial_witness :
    ∃ e1 e2, (Unlock sfCorruptEntryW (some "mallory")).2 = some e1 ∧
      (Unlock sfWrongKeyW (some "mallory")).2 = some e2 ∧
      e1 = Err.accessDenied ∧ e2 = Err.accessDenied ∧ e1 = e2 := by
  refine ⟨Err.accessDenied, Err.accessDenied, by decide, by decide, ?_, ?_, rfl⟩
  · exact C4_unlock_uniform_denial sfCorruptEntryW "mallory"
      { recipients := [{ arg := "a", enc := .junk "zz" }] } Err.accessDenied rfl (by decide)
  · exact C4_unlock_uniform_denial sfWrongKeyW "mallory"
      { recipients := [recW] } Err.accessDenied rfl (by decide)

/-- C2: a successful `RotateRecipients` (standard rekey) changes only the
recipient metadata block: the active DEK, the canonical secrets map, and
the legacy entries are unchanged, hence every read (`GetAllSecrets`,
`GetSecret`) returns exactly what it did before — a DEK copy captured
before the call still unseals every existing value. -/
theorem C2_rotateRecipients_frame (sf sf2 : SecretFile) (keys : List String)
    (h : RotateRecipients sf keys = (sf2, none)) :
    sf2.decryptedDEK = sf.decryptedDEK ∧ sf2.secrets = sf.secrets ∧ sf2.legacy = sf.legacy ∧
    GetAllSecrets sf2 = GetAllSecrets sf ∧ (∀ key, GetSecret sf2 key = GetSecret sf key) := by
  rcases hdek : sf.decryptedDEK with - | d <;>
    simp only [RotateRecipients, rotateRecipientsLocked, hdek] at h
  · simp at h
  · split at h
    · simp at h
    · split at h
      · simp at h
      · rw [Prod.mk.injEq] at h
        rw [← h.1]
        refine ⟨rfl, rfl, rfl, ?_, ?_⟩
        · simp only [GetAllSecrets, ensureSecretsMapRead, hdek]
        · intro key
          simp only [GetSecret, ensureSecretsMapRead, hdek]

/-- Witness for C2: rewrapping `sfRotFrameW` to a different recipient
succeeds and leaves DEK, secrets, and legacy entries untouched. -/
theorem C2_rotateRecipients_frame_witness :
    ∃ sf2, RotateRecipients sfRotFrameW [pubKeyOf "bob"] = (sf2, none) ∧
      sf2.decryptedDEK = sfRotFrameW.decryptedDEK ∧ sf2.secrets = sfRotFrameW.secrets ∧
      sf2.legacy = sfRotFrameW.legacy ∧ sf2.meta ≠ sfRotFrameW.meta := by
  refine ⟨(RotateRecipients sfRotFrameW [pubKeyOf "bob"]).1, by decide, ?_, ?_, ?_, by decide⟩
  · exact (C2_rotateRecipients_frame sfRotFrameW _ [pubKeyOf "bob"] (by decide)).1
  · exact (C2_rotateRecipients_frame sfRotFrameW _ [pubKeyOf "bob"] (by decide)).2.1
  · exact (C2_rotateRecipients_frame sfRotFrameW _ [pubKeyOf "bob"] (by decide)).2.2.1

/-- C7: with the vault unlocked, `GetAllSecrets` never fails; every
canonical entry is present in the result, an entry that decrypts yields
its plaintext, and an entry whose unsealing fails yields its raw stored
value instead of an error. -/
theorem C7_getAllSecrets_degrade (sf : SecretFile) (d : Bytes)
    (hd : sf.decryptedDEK = some d) :
    (∃ out, GetAllSecrets sf = .ok out) ∧
    (∀ es out k v, sf.secrets = some (.smap es) → (es.map Prod.fst).Nodup →
      (k, v) ∈ es → GetAllSecrets sf = .ok out →
      lookupA out k = some (canonResult d v) ∧
      (∀ e2, decryptAnyLocked d v = .error e2 → lookupA out k = some (rawFallback v))) := by
  have hout : GetAllSecrets sf = .ok (getAllLegacy d
      (match ensureSecretsMapRead sf with
        | .ok (some es) => getAllCanon d [] es
        | _ => []) sf.legacy) := by
    simp only [GetAllSecrets, hd]
  refine ⟨⟨_, hout⟩, ?_⟩
  intro es out k v hs hnd hmem hok
  have hread : ensureSecretsMapRead sf = .ok (some es) := by
    simp [ensureSecretsMapRead, hs]
  rw [hout] at hok
  rw [hread] at hok
  have hcanon := getAllCanon_lookup d es [] k v hnd hmem
  have hfinal := getAllLegacy_preserve d sf.legacy _ k _ hcanon
  simp only [Except.ok.injEq] at hok
  have hlook : lookupA out k = some (canonResult d v) := by
    rw [← hok]
    exact hfinal
  refine ⟨hlook, ?_⟩
  intro e2 he2
  rw [hlook]
  simp [canonResult, he2]

/-- Witness for C7: the tampered entry degrades to its raw `ENC[...]`
string, the good entry decrypts, and the whole call succeeds. -/
theorem C7_getAllSecrets_degrade_witness :
    ∃ out, GetAllSecrets sfDegradeW = .ok out ∧
      lookupA out "bad" = some "ENC[age,chacha20,zz]" ∧
      lookupA out "good" = some "v" := by
  have h := C7_getAllSecrets_degrade sfDegradeW dekW rfl
  obtain ⟨out, hout⟩ := h.1
  refine ⟨out, hout, ?_, ?_⟩
  · have hb := (h.2 _ out "bad" (.enc (.tampered "zz")) rfl (by decide) (by decide) hout).2
      Err.decryptValueFailed (by decide)
    rw [show rawFallback (SVal.enc (.tampered "zz")) = "ENC[age,chacha20,zz]" from by decide] at hb
    exact hb
  · have hg := (h.2 _ out "good" (.enc (.sealedV 1 "v" dekW)) rfl (by decide) (by decide) hout).1
    rw [show canonResult dekW (SVal.enc (.sealedV 1 "v" dekW)) = "v" from by decide] at hg
    exact hg

theorem charToNat_inj {x y : Char} (h : x.toNat = y.toNat) : x = y := by
  have := congrArg Char.ofNat h
  simpa using this

theorem lexLt_irrefl : ∀ a, lexLt a a = false := by
  intro a
  induction a with
  | nil => rfl
  | cons x xs ih => simp [lexLt, ih]

theorem lexLt_asymm : ∀ a b, lexLt a b = true → lexLt b a = false := by
  intro a
  induction a with
  | nil =>
    intro b h
    cases b with
    | nil => simp [lexLt] at h
    | cons y ys => simp [lexLt]
  | cons x xs ih =>
    intro b h
    cases b with
    | nil => simp [lexLt] at h
    | cons y ys =>
      simp only [lexLt] at h ⊢
      by_cases h1 : x.toNat < y.toNat
      · have h2 : ¬ y.toNat < x.toNat := by omega
        simp [h1, h2]
      · by_cases h2 : y.toNat < x.toNat
        · simp [h1, h2] at h
        · simp only [h1, if_false, h2] at h
          simp [h1, h2, ih _ h]

theorem lexLt_antisymm_eq : ∀ a b, lexLt a b = false → lexLt b a = false → a = b := by
  intro a
  induction a with
  | nil =>
    intro b h1 h2
    cases b with
    | nil => rfl
    | cons y ys => simp [lexLt] at h1
  | cons x xs ih =>
    intro b h1 h2
    cases b with
    | nil => simp [lexLt] at h2
    | cons y ys =>
      simp only [lexLt] at h1 h2
      by_cases hxy : x.toNat < y.toNat
      · simp [hxy] at h1
      · by_cases hyx : y.toNat < x.toNat
        · simp [hxy, hyx] at h2
        · simp only [hxy, hyx, if_false] at h1 h2
          have hx : x = y := charToNat_inj (by omega)
          rw [hx, ih ys h1 h2]

theorem lexLt_trans : ∀ a b c, lexLt a b = true → lexLt b c = true → lexLt a c = true := by
  intro a
  induction a with
  | nil =>
    intro b c h1 h2
    cases b with
    | nil => simp [lexLt] at h1
    | cons y ys =>
      cases c with
      | nil => simp [lexLt] at h2
      | cons z zs => simp [lexLt]
  | cons x xs ih =>
    intro b c h1 h2
    cases b with
    | nil => simp [lexLt] at h1
    | cons y ys =>
      cases c with
      | nil => simp [lexLt] at h2
      | cons z zs =>
        simp only [lexLt] at h1 h2 ⊢
        by_cases hxy : x.toNat < y.toNat <;> by_cases hyz : y.toNat < z.toNat
        · simp [show x.toNat < z.toNat by omega]
        · by_cases hzy : z.toNat < y.toNat
          · simp [hyz, hzy] at h2
          · have : y.toNat = z.toNat := by omega
            simp [show x.toNat < z.toNat by omega]
        · by_cases hyx : y.toNat < x.toNat
          · simp [hxy, hyx] at h1
          · have : x.toNat = y.toNat := by omega
            simp [show x.toNat < z.toNat by omega]
        · by_cases hyx : y.toNat < x.toNat
          · simp [hxy, hyx] at h1
          · by_cases hzy : z.toNat < y.toNat
            · simp [hyz, hzy] at h2
            · have hxz : ¬ x.toNat < z.toNat := by omega
              have hzx : ¬ z.toNat < x.toNat := by omega
              simp only [hxy, hyx, if_false] at h1
              simp only [hyz, hzy, if_false] at h2
              simp [hxz, hzx, ih _ _ h1 h2]

theorem lexLt_false_trans (a b c : List Char) (h1 : lexLt b a = false) (h2 : lexLt c b = false) :
    lexLt c a = false := by
  by_cases hca : lexLt c a = true
  · by_cases hab : lexLt a b = true
    · rw [lexLt_trans c a b hca hab] at h2
      cases h2
    · have hav : a = b := lexLt_antisymm_eq a b (by revert hab; cases lexLt a b <;> simp) h1
      rw [hav] at hca
      rw [hca] at h2
      cases h2
  · revert hca
    cases lexLt c a <;> simp

/-- Roster sortedness by name alone: `a` precedes `b` when `b`'s name is
not lexicographically smaller. -/
def nameLe (a b : User) : Prop := lexLt b.name.data a.name.data = false

instance (a b : User) : Decidable (nameLe a b) := by
  unfold nameLe
  infer_instance

/-- Roster sortedness by name with the public key breaking ties:
strictly smaller name, or equal name and public key not greater. -/
def userLexLe (a b : User) : Prop :=
  lexLt a.name.data b.name.data = true ∨
    (a.name = b.name ∧ lexLt b.publicKey.data a.publicKey.data = false)

instance (a b : User) : Decidable (userLexLe a b) := by
  unfold userLexLe
  infer_instance

/-- C6 counterexample: adding a second user with an already-present name
succeeds, but `AddUser`'s sort compares names only, so the tied public
keys stay in insertion order (`k2` before `k1`) — the resulting list is
NOT sorted with ties broken by public key. -/
theorem C6_addUser_tiebreak_counterexample :
    AddUser mTieW "b" "k1" = .ok m2W ∧
    ¬ List.Pairwise userLexLe m2W.accessControl := by
  constructor
  · decide
  · decide

/-- C6 amended: after every successful `AddUser` the roster is sorted by
name (non-decreasing), but ties are NOT broken by public key there; the
name-then-public-key lexicographic sort happens only in load-time
`normalizeInPlace`. -/
theorem C6_addUser_sorted_by_name (m m2 : Manifest) (name pubKey : String)
    (h : AddUser m name pubKey = .ok m2) :
    List.Pairwise nameLe m2.accessControl ∧
    (∀ m3 : Manifest, List.Pairwise userLexLe (normalizeInPlace m3).accessControl) := by
  constructor
  · simp only [AddUser] at h
    split at h
    · cases h
    · split at h
      · cases h
      · split at h
        · cases h
        · simp only [Except.ok.injEq] at h
          rw [← h]
          apply pairwise_insertionSort
          · intro a b hab
            exact lexLt_asymm _ _ hab
          · intro a b hab
            exact hab
          · intro a b c h1 h2
            exact lexLt_false_trans _ _ _ h1 h2
  · intro m3
    unfold normalizeInPlace
    apply pairwise_insertionSort
    · intro a b hab
      by_cases heq : a.name = b.name
      · rw [if_pos heq] at hab
        exact Or.inr ⟨heq, lexLt_asymm _ _ hab⟩
      · rw [if_neg heq] at hab
        exact Or.inl hab
    · intro a b hab
      by_cases heq : a.name = b.name
      · rw [if_pos heq] at hab
        exact Or.inr ⟨heq.symm, hab⟩
      · rw [if_neg heq] at hab
        by_cases hba : lexLt b.name.data a.name.data = true
        · exact Or.inl hba
        · have hba2 : lexLt b.name.data a.name.data = false := by
            revert hba
            cases lexLt b.name.data a.name.data <;> simp
          have : a.name.data = b.name.data := lexLt_antisymm_eq _ _ hab hba2
          have : a.name = b.name := by
            cases hna : a.name
            cases hnb : b.name
            rw [hna, hnb] at this
            simp only at this
            rw [this]
          exact absurd this heq
    · intro a b c h1 h2
      rcases h1 with h1 | ⟨h1e, h1k⟩ <;> rcases h2 with h2 | ⟨h2e, h2k⟩
      · exact Or.inl (lexLt_trans _ _ _ h1 h2)
      · have : b.name.data = c.name.data := by rw [h2e]
        exact Or.inl (this ▸ h1)
      · have : a.name.data = b.name.data := by rw [h1e]
        exact Or.inl (by rw [this]; exact h2)
      · exact Or.inr ⟨h1e.trans h2e, lexLt_false_trans _ _ _ h1k h2k⟩

/-- Witness for C6's amended theorem at the tie-producing input. -/
theorem C6_addUser_sorted_by_name_witness :
    List.Pairwise nameLe m2W.accessControl ∧
    List.Pairwise userLexLe (normalizeInPlace m2W).accessControl := by
  have h := C6_addUser_sorted_by_name mTieW m2W "b" "k1" (by decide)
  exact ⟨h.1, h.2 m2W⟩

/-- C1 counterexample: rotation-mode rekey on a vault whose secrets map
holds a key that trims to empty fails mid-way (after `Init`), leaving the
in-memory vault with the NEW DEK wrapped in its metadata while the value
`"a"` is still sealed under the OLD DEK — the exact partial application
the claim rules out — and with its recipient metadata changed from the
prior state. -/
theorem C1_rekeyRotate_partial_counterexample :
    (runRekeyRotate sfRotC1 (some (saveDoc sfRotC1)) [pubKeyOf "r"] 7).2.2 = some Err.emptyKey ∧
    (runRekeyRotate sfRotC1 (some (saveDoc sfRotC1)) [pubKeyOf "r"] 7).1.meta =
      some (.metaV { recipients := [{ arg := pubKeyOf "r", enc := .wrap (generateDEK 7) [pubKeyOf "r"] }] }) ∧
    generateDEK 7 ≠ oldDekW ∧
    (runRekeyRotate sfRotC1 (some (saveDoc sfRotC1)) [pubKeyOf "r"] 7).1.meta ≠ sfRotC1.meta ∧
    (runRekeyRotate sfRotC1 (some (saveDoc sfRotC1)) [pubKeyOf "r"] 7).1.secrets =
      some (.smap [(" ", .plain "v2"), ("a", .enc (.sealedV 1 "va" oldDekW))]) := by
  refine ⟨by decide, by decide, by decide, by decide, by decide⟩

/-- C1 amended: when rotation-mode rekey fails at any step, it aborts
before `Save`, so the PERSISTED document retains its prior state
unchanged, and the vault is left locked by the deferred `Lock`; the
in-memory vault object, however, is not rolled back (see the
counterexample). -/
theorem C1_rekeyRotate_disk_preserved (sf sf2 : SecretFile) (disk disk2 : Option SavedDoc)
    (recips : List String) (seed : Nat) (e : Err)
    (h : runRekeyRotate sf disk recips seed = (sf2, disk2, some e)) :
    disk2 = disk ∧ sf2.decryptedDEK = none := by
  unfold runRekeyRotate at h
  split at h
  · simp only [Prod.mk.injEq] at h
    exact ⟨h.2.1.symm, by rw [← h.1]; rfl⟩
  · split at h
    · simp only [Prod.mk.injEq] at h
      exact ⟨h.2.1.symm, by rw [← h.1]; rfl⟩
    · split at h
      · simp only [Prod.mk.injEq] at h
        exact ⟨h.2.1.symm, by rw [← h.1]; rfl⟩
      · split at h
        · simp only [Prod.mk.injEq] at h
          exact ⟨h.2.1.symm, by rw [← h.1]; rfl⟩
        · simp only [Prod.mk.injEq] at h
          simp at h

/-- Witness for C1's amended theorem at the concrete failing rotation. -/
theorem C1_rekeyRotate_disk_preserved_witness :
    (runRekeyRotate sfRotC1 (some (saveDoc sfRotC1)) [pubKeyOf "r"] 7).2.1 =
      some (saveDoc sfRotC1) ∧
    (runRekeyRotate sfRotC1 (some (saveDoc sfRotC1)) [pubKeyOf "r"] 7).1.decryptedDEK = none := by
  have h := C1_rekeyRotate_disk_preserved sfRotC1
    (runRekeyRotate sfRotC1 (some (saveDoc sfRotC1)) [pubKeyOf "r"] 7).1
    (some (saveDoc sfRotC1))
    (runRekeyRotate sfRotC1 (some (saveDoc sfRotC1)) [pubKeyOf "r"] 7).2.1
    [pubKeyOf "r"] 7 Err.emptyKey (by decide)
  exact h

end Envseal
